import Mathlib

/-!
Shallow embedding of the contact-management data model of this repository
(task01.py, with the identical data-model classes repeated in task02.py).

Conventions of the embedding:
* Python strings are Lean `String`s; `str.isdigit` is modelled over the
  ASCII decimal digits (the only characters the repository ever feeds it).
* Raising `ValueError` is modelled by `Except String`; the carried string is
  the message of the `raise` in the source.
* A Python `datetime` is a structure of year/month/day/hour/minute/second/
  microsecond fields; `datetime` comparison and `timedelta` arithmetic act
  on its position on the time line, measured in microseconds from the
  proleptic-Gregorian day 0 (`dtToUs`, built on the ordinal computation that
  backs `datetime.toordinal`).  `timedelta(days=7)` advances that position
  by exactly `7 * dayUs`.
* The `dict` underlying `AddressBook` (via `UserDict`) is an insertion-order
  association list whose insert replaces the value in place when the key is
  already present, as a Python dict does.
-/

/-- Python `str.isdigit`, over ASCII decimal digits: true iff the string is
nonempty and every character is a digit (`"".isdigit()` is `False`). -/
def pyIsdigit (s : String) : Bool :=
  !s.data.isEmpty && s.data.all Char.isDigit

/-- Numeric value of a list of decimal digit characters (most significant
first), as computed when parsing a matched digit group. -/
def digitsToNat (l : List Char) : Nat :=
  l.foldl (fun a c => a * 10 + (c.toNat - 48)) 0

/-- The decimal digit character for a value below 10 (used by zero-padded
`strftime` rendering). -/
def digitChar : Nat → Char
  | 0 => '0'
  | 1 => '1'
  | 2 => '2'
  | 3 => '3'
  | 4 => '4'
  | 5 => '5'
  | 6 => '6'
  | 7 => '7'
  | 8 => '8'
  | _ => '9'

/-- Split a character list on the dot separator, keeping (possibly empty)
groups; models how `strptime` with format `%d.%m.%Y` carves the input into
the three digit groups around the literal dots. -/
def splitOnDot : List Char → List (List Char)
  | [] => [[]]
  | c :: rest =>
    if c = '.' then [] :: splitOnDot rest
    else
      match splitOnDot rest with
      | [] => [[c]]
      | g :: gs => (c :: g) :: gs

/-- Gregorian leap-year rule, as in Python's `calendar.isleap` /
`datetime`. -/
def isLeapYear (y : Nat) : Bool :=
  y % 4 == 0 && (y % 100 != 0 || y % 400 == 0)

/-- Days in a month of a given year (`datetime`'s `_days_in_month`). -/
def daysInMonth (y m : Nat) : Nat :=
  if m = 2 then (if isLeapYear y then 29 else 28)
  else if m = 4 ∨ m = 6 ∨ m = 9 ∨ m = 11 then 30
  else 31

/-- Days in the given year before the first of the given month
(`datetime`'s `_days_before_month`). -/
def daysBeforeMonth (y : Nat) : Nat → Nat
  | 0 => 0
  | 1 => 0
  | m + 1 => daysBeforeMonth y m + daysInMonth y m

/-- Days before January 1st of the given year, counting from year 1
(`datetime`'s `_days_before_year`). -/
def daysBeforeYear (y : Nat) : Nat :=
  365 * (y - 1) + (y - 1) / 4 - (y - 1) / 100 + (y - 1) / 400

/-- Proleptic-Gregorian ordinal of a calendar date, with 01.01.0001 having
ordinal 1 (`datetime.toordinal`). -/
def toOrdinal (y m d : Nat) : Nat :=
  daysBeforeYear y + daysBeforeMonth y m + d

/-- Microseconds in a day: the exact length of `timedelta(days=1)`. -/
def dayUs : Nat := 86400000000

/-- A Python `datetime` value: a calendar date with a time of day. -/
structure Datetime where
  year : Nat
  month : Nat
  day : Nat
  hour : Nat
  minute : Nat
  second : Nat
  microsecond : Nat
deriving DecidableEq, Repr

/-- Position of a `datetime` on the time line, in microseconds from the
proleptic-Gregorian day 0.  Python's `datetime` comparisons order values by
exactly this quantity, and adding `timedelta(days=7)` advances it by
`7 * dayUs`. -/
def dtToUs (dt : Datetime) : Nat :=
  toOrdinal dt.year dt.month dt.day * dayUs
    + (dt.hour * 3600 + dt.minute * 60 + dt.second) * 1000000
    + dt.microsecond

/-- Zero-padded two-digit rendering (strftime `%d` / `%m`). -/
def pad2 (n : Nat) : List Char :=
  [digitChar (n / 10), digitChar (n % 10)]

/-- Zero-padded four-digit rendering (strftime `%Y`; the Python format-code
table documents `%Y` as `0001, ..., 9999`). -/
def pad4 (n : Nat) : List Char :=
  [digitChar (n / 1000), digitChar (n / 100 % 10), digitChar (n / 10 % 10), digitChar (n % 10)]

/-- `Name` field: a validated contact name. -/
structure Name where
  value : String
deriving DecidableEq, Repr

/-- `Name.__init__`: `if not value: raise ValueError(...)` — a Python string
is falsy exactly when it is empty. -/
def Name.init (value : String) : Except String Name :=
  if value = "" then .error "The name cannot be empty."
  else .ok { value := value }

/-- `Phone` field: a validated phone number. -/
structure Phone where
  value : String
deriving DecidableEq, Repr

/-- `Phone.__init__`: `if not value.isdigit() or len(value) != 10: raise`. -/
def Phone.init (value : String) : Except String Phone :=
  if !pyIsdigit value || value.length != 10 then
    .error "The phone number must contain exactly 10 digits."
  else .ok { value := value }

/-- `Field.__str__` for a `Phone` (its value is already the raw string). -/
def Phone.str (p : Phone) : String := p.value

/-- `Birthday` field: holds the parsed `datetime` (the raw string is
discarded). -/
structure Birthday where
  value : Datetime
deriving DecidableEq, Repr

/-- One digit group of the `strptime` regex: between `minLen` and `maxLen`
digit characters whose value lies in `[lo, hi]` (Python's `_strptime`
compiles `%d` to 1–2 digits valued 1–31, `%m` to 1–2 digits valued 1–12,
and `%Y` to exactly 4 digits). -/
def parseGroup (minLen maxLen lo hi : Nat) (g : List Char) : Option Nat :=
  if minLen ≤ g.length ∧ g.length ≤ maxLen ∧ g.all Char.isDigit then
    if lo ≤ digitsToNat g ∧ digitsToNat g ≤ hi then some (digitsToNat g)
    else none
  else none

/-- `datetime.strptime(value, "%d.%m.%Y")`: match the three digit groups
around the literal dots, then let the `datetime` constructor validate the
calendar date (year at least `MINYEAR = 1`, day within the month).  Returns
`(year, month, day)`. -/
def strptimeDMY (s : String) : Option (Nat × Nat × Nat) :=
  match splitOnDot s.data with
  | [ds, ms, ys] =>
    match parseGroup 1 2 1 31 ds, parseGroup 1 2 1 12 ms, parseGroup 4 4 0 9999 ys with
    | some d, some m, some y =>
      if 1 ≤ y ∧ d ≤ daysInMonth y m then some (y, m, d) else none
    | _, _, _ => none
  | _ => none

/-- `Birthday.__init__`: parse with `strptime` and store the resulting
`datetime` (missing time fields default to midnight); any parse or
date-validity failure is re-raised with the fixed message. -/
def Birthday.init (value : String) : Except String Birthday :=
  match strptimeDMY value with
  | some (y, m, d) =>
    .ok { value := { year := y, month := m, day := d, hour := 0, minute := 0, second := 0, microsecond := 0 } }
  | none => .error "Invalid date format. Use DD.MM.YYYY"

/-- `self.birthday.value.strftime('%d.%m.%Y')`: zero-padded day, month and
year around literal dots. -/
def Birthday.render (b : Birthday) : String :=
  String.mk (pad2 b.value.day ++ '.' :: pad2 b.value.month ++ '.' :: pad4 b.value.year)

/-- A contact record: one name, an ordered list of phones, an optional
birthday. -/
structure Record where
  name : Name
  phones : List Phone
  birthday : Option Birthday
deriving DecidableEq, Repr

/-- `Record.__init__`: validates the name, starts with no phones and no
birthday. -/
def Record.init (name : String) : Except String Record :=
  (Name.init name).map fun n => { name := n, phones := [], birthday := none }

/-- `Record.add_phone`: `self.phones.append(Phone(phone))` — the `Phone`
constructor runs (and may raise) before the append mutates the list. -/
def Record.add_phone (r : Record) (phone : String) : Except String Record :=
  (Phone.init phone).map fun p => { r with phones := r.phones ++ [p] }

/-- The loop of `Record.remove_phone`: find the first phone whose value
equals the argument and remove it (returning `true`), else `false` with the
list untouched. -/
def removeLoop (phone : String) : List Phone → Bool × List Phone
  | [] => (false, [])
  | p :: rest =>
    if p.value = phone then (true, rest)
    else ((removeLoop phone rest).1, p :: (removeLoop phone rest).2)

/-- `Record.remove_phone`. -/
def Record.remove_phone (r : Record) (phone : String) : Bool × Record :=
  ((removeLoop phone r.phones).1, { r with phones := (removeLoop phone r.phones).2 })

/-- The loop of `Record.edit_phone`: at the first phone whose value equals
`old` the source executes `self.phones[i] = Phone(new)` — the constructor
call on the right-hand side runs (and may raise) before the assignment, so
on a validation error the list is returned unchanged. -/
def editLoop (old nw : String) : List Phone → Except String Bool × List Phone
  | [] => (.ok false, [])
  | p :: rest =>
    if p.value = old then
      match Phone.init nw with
      | .error e => (.error e, p :: rest)
      | .ok q => (.ok true, q :: rest)
    else ((editLoop old nw rest).1, p :: (editLoop old nw rest).2)

/-- `Record.edit_phone`. -/
def Record.edit_phone (r : Record) (old nw : String) : Except String Bool × Record :=
  ((editLoop old nw r.phones).1, { r with phones := (editLoop old nw r.phones).2 })

/-- `Record.add_birthday`: `self.birthday = Birthday(birthday)` — validate,
then set/overwrite. -/
def Record.add_birthday (r : Record) (birthday : String) : Except String Record :=
  (Birthday.init birthday).map fun b => { r with birthday := some b }

/-- `AddressBook` (a `UserDict`): `self.data` is the underlying dict,
modelled as an insertion-ordered association list with unique keys. -/
structure AddressBook where
  data : List (String × Record)
deriving DecidableEq, Repr

/-- `self.data[k] = v` on a Python dict: replace in place if the key is
present (keeping its position), else append at the end. -/
def dictInsert (k : String) (v : Record) : List (String × Record) → List (String × Record)
  | [] => [(k, v)]
  | (k1, v1) :: rest =>
    if k1 = k then (k, v) :: rest else (k1, v1) :: dictInsert k v rest

/-- `self.data.get(name)`. -/
def dictGet (n : String) : List (String × Record) → Option Record
  | [] => none
  | (k, v) :: rest => if k = n then some v else dictGet n rest

/-- `del self.data[name]` (on a dict the key occurs at most once). -/
def dictDel (n : String) : List (String × Record) → List (String × Record)
  | [] => []
  | (k, v) :: rest => if k = n then rest else (k, v) :: dictDel n rest

/-- `AddressBook.add_record`: `self.data[record.name.value] = record`. -/
def AddressBook.add_record (book : AddressBook) (record : Record) : AddressBook :=
  { data := dictInsert record.name.value record book.data }

/-- `AddressBook.find`: `self.data.get(name)` — `none` models Python's
`None`. -/
def AddressBook.find (book : AddressBook) (name : String) : Option Record :=
  dictGet name book.data

/-- `AddressBook.delete`: `if name in self.data: del self.data[name]`. -/
def AddressBook.delete (book : AddressBook) (name : String) : AddressBook :=
  { data := dictDel name book.data }

/-- `name in self.data`. -/
def AddressBook.hasKey (book : AddressBook) (name : String) : Bool :=
  (dictGet name book.data).isSome

/-- `self.data.values()`, in the dict's iteration (insertion) order. -/
def AddressBook.values (book : AddressBook) : List Record :=
  book.data.map Prod.snd

/-- The dict invariant of `AddressBook.data`: keys are unique. -/
def AddressBook.KeysNodup (book : AddressBook) : Prop :=
  (book.data.map Prod.fst).Nodup

/-- The condition of the loop body of `get_upcoming_birthdays`: the record
has a birthday and `today <= birthday <= next_week`. -/
def upcomingPred (now : Nat) (r : Record) : Bool :=
  match r.birthday with
  | some b => decide (now ≤ dtToUs b.value) && decide (dtToUs b.value ≤ now + 7 * dayUs)
  | none => false

/-- `AddressBook.get_upcoming_birthdays`: `today = datetime.now()` is the
instant of the call, passed here explicitly as its time-line position
`now`; `next_week = today + timedelta(days=7)` sits at `now + 7 * dayUs`;
the loop appends, in iteration order, every record with a birthday whose
stored datetime satisfies `today <= birthday <= next_week`. -/
def AddressBook.get_upcoming_birthdays (book : AddressBook) (now : Nat) : List Record :=
  book.data.foldl
    (fun upcoming kr =>
      match kr.2.birthday with
      | some b =>
        if now ≤ dtToUs b.value ∧ dtToUs b.value ≤ now + 7 * dayUs then upcoming ++ [kr.2]
        else upcoming
      | none => upcoming)
    []

/-- A phone list entry is valid when its value is a string of exactly 10
decimal digits (the `Phone` invariant). -/
def ValidPhone (p : Phone) : Prop :=
  p.value.length = 10 ∧ p.value.data.all Char.isDigit = true

/-- Records reachable through the public operations: constructed by
`Record.__init__` and transformed by any sequence of `add_phone`,
`edit_phone`, `remove_phone`, `add_birthday` calls (on an error the record
is left as it was, which is already covered by the premise). -/
inductive ReachableRecord : Record → Prop
  | init (name : String) (r : Record) :
      Record.init name = .ok r → ReachableRecord r
  | add_phone (r : Record) (phone : String) (r1 : Record) :
      ReachableRecord r → r.add_phone phone = .ok r1 → ReachableRecord r1
  | edit_phone (r : Record) (old nw : String) (res : Except String Bool) (r1 : Record) :
      ReachableRecord r → r.edit_phone old nw = (res, r1) → ReachableRecord r1
  | remove_phone (r : Record) (phone : String) (b : Bool) (r1 : Record) :
      ReachableRecord r → r.remove_phone phone = (b, r1) → ReachableRecord r1
  | add_birthday (r : Record) (birthday : String) (r1 : Record) :
      ReachableRecord r → r.add_birthday birthday = .ok r1 → ReachableRecord r1

/-! ### Shared lemmas -/

theorem digitChar_eq_ofNat : ∀ n < 58, 48 ≤ n → digitChar (n - 48) = Char.ofNat n := by decide

theorem digitChar_inv (c : Char) (h : c.isDigit = true) : digitChar (c.toNat - 48) = c := by
  simp [Char.isDigit] at h
  obtain ⟨h1, h2⟩ := h
  have h3 : c.toNat < 58 := Nat.lt_succ_of_le h2
  calc digitChar (c.toNat - 48) = Char.ofNat c.toNat := digitChar_eq_ofNat _ h3 h1
    _ = c := Char.ofNat_toNat c

theorem isDigit_toNat_bounds (c : Char) (h : c.isDigit = true) :
    48 ≤ c.toNat ∧ c.toNat ≤ 57 := by
  simp [Char.isDigit] at h
  exact h

theorem isDigit_ne_dot (c : Char) (h : c.isDigit = true) : c ≠ '.' := by
  intro heq
  rw [heq] at h
  simp [Char.isDigit] at h

theorem splitOnDot_ne_nil (l : List Char) : splitOnDot l ≠ [] := by
  induction l with
  | nil => simp [splitOnDot]
  | cons c rest ih =>
    simp only [splitOnDot]
    by_cases h : c = '.'
    · simp [h]
    · rw [if_neg h]
      rcases hs : splitOnDot rest with _ | ⟨g, gs⟩
      · simp
      · simp

theorem splitOnDot_no_dot (l : List Char) (h : ∀ c ∈ l, c ≠ '.') :
    splitOnDot l = [l] := by
  induction l with
  | nil => rfl
  | cons c rest ih =>
    have hc : c ≠ '.' := h c (List.mem_cons_self c rest)
    have hrest := ih (fun x hx => h x (List.mem_cons_of_mem c hx))
    simp only [splitOnDot, if_neg hc, hrest]

theorem splitOnDot_append (a t : List Char) (h : ∀ c ∈ a, c ≠ '.') :
    splitOnDot (a ++ '.' :: t) = a :: splitOnDot t := by
  induction a with
  | nil => simp [splitOnDot]
  | cons c rest ih =>
    have hc : c ≠ '.' := h c (List.mem_cons_self c rest)
    have hrest := ih (fun x hx => h x (List.mem_cons_of_mem c hx))
    simp only [List.cons_append, splitOnDot, if_neg hc, List.append_eq, hrest]

theorem digitsToNat_pair (c1 c2 : Char) :
    digitsToNat [c1, c2] = 10 * (c1.toNat - 48) + (c2.toNat - 48) := by
  simp [digitsToNat, List.foldl]
  omega

theorem digitsToNat_quad (c1 c2 c3 c4 : Char) :
    digitsToNat [c1, c2, c3, c4] =
      1000 * (c1.toNat - 48) + 100 * (c2.toNat - 48) + 10 * (c3.toNat - 48) + (c4.toNat - 48) := by
  simp [digitsToNat, List.foldl]
  omega

theorem daysInMonth_le_31 (y m : Nat) : daysInMonth y m ≤ 31 := by
  unfold daysInMonth
  split
  · split <;> omega
  · split <;> omega

theorem dictGet_insert_self (k : String) (v : Record) (l : List (String × Record)) :
    dictGet k (dictInsert k v l) = some v := by
  induction l with
  | nil => simp [dictInsert, dictGet]
  | cons kv rest ih =>
    obtain ⟨k1, v1⟩ := kv
    by_cases h : k1 = k
    · simp [dictInsert, dictGet, h]
    · simp [dictInsert, dictGet, h, ih]

theorem dictGet_insert_ne (k n : String) (v : Record) (l : List (String × Record))
    (h : n ≠ k) : dictGet n (dictInsert k v l) = dictGet n l := by
  induction l with
  | nil =>
    simp only [dictInsert, dictGet]
    rw [if_neg (Ne.symm h)]
  | cons kv rest ih =>
    obtain ⟨k1, v1⟩ := kv
    by_cases h1 : k1 = k
    · subst h1
      simp only [dictInsert, if_pos rfl, dictGet]
      rw [if_neg (Ne.symm h), if_neg (Ne.symm h)]
    · simp only [dictInsert, if_neg h1, dictGet]
      by_cases h2 : k1 = n
      · rw [if_pos h2, if_pos h2]
      · rw [if_neg h2, if_neg h2]
        exact ih

theorem dictGet_not_key (n : String) (l : List (String × Record))
    (h : n ∉ l.map Prod.fst) : dictGet n l = none := by
  induction l with
  | nil => rfl
  | cons kv rest ih =>
    obtain ⟨k1, v1⟩ := kv
    simp only [List.map_cons, List.mem_cons] at h
    push_neg at h
    have h1 : ¬k1 = n := fun he => h.1 he.symm
    simp only [dictGet, if_neg h1]
    exact ih h.2

theorem dictDel_not_found (n : String) (l : List (String × Record))
    (h : dictGet n l = none) : dictDel n l = l := by
  induction l with
  | nil => rfl
  | cons kv rest ih =>
    obtain ⟨k1, v1⟩ := kv
    by_cases h1 : k1 = n
    · simp [dictGet, h1] at h
    · simp only [dictGet, if_neg h1] at h
      simp [dictDel, h1, ih h]

theorem dictGet_del_self (n : String) (l : List (String × Record))
    (h : (l.map Prod.fst).Nodup) : dictGet n (dictDel n l) = none := by
  induction l with
  | nil => rfl
  | cons kv rest ih =>
    obtain ⟨k1, v1⟩ := kv
    simp only [List.map_cons, List.nodup_cons] at h
    by_cases h1 : k1 = n
    · subst h1
      simp only [dictDel, if_pos rfl]
      exact dictGet_not_key k1 rest h.1
    · simp only [dictDel, if_neg h1, dictGet, if_neg h1]
      exact ih h.2

theorem dictGet_mem (n : String) (l : List (String × Record)) (r : Record)
    (h : dictGet n l = some r) : (n, r) ∈ l := by
  induction l with
  | nil => simp [dictGet] at h
  | cons kv rest ih =>
    obtain ⟨k1, v1⟩ := kv
    by_cases h1 : k1 = n
    · subst h1
      have hv : v1 = r := by simpa [dictGet] using h
      subst hv
      exact List.mem_cons_self _ _
    · simp only [dictGet, if_neg h1] at h
      exact List.mem_cons_of_mem _ (ih h)

theorem Phone.init_ok (s : String) (p : Phone) (h : Phone.init s = .ok p) :
    p.value = s ∧ ValidPhone p := by
  unfold Phone.init at h
  by_cases hc : (!pyIsdigit s || s.length != 10) = true
  · rw [if_pos hc] at h
    exact Except.noConfusion h
  · rw [if_neg hc] at h
    cases h
    refine ⟨rfl, ?_⟩
    unfold ValidPhone
    have h1 : pyIsdigit s = true := by
      rcases Bool.eq_false_or_eq_true (pyIsdigit s) with ht | hf
      · exact ht
      · exact absurd (by simp [hf]) hc
    have h2 : (s.length != 10) = false := by
      rcases Bool.eq_false_or_eq_true (s.length != 10) with ht | hf
      · exact absurd (by simp [ht]) hc
      · exact hf
    simp only [pyIsdigit, Bool.and_eq_true] at h1
    refine ⟨?_, h1.2⟩
    simpa using h2

theorem Phone.init_valid (s : String) (h10 : s.length = 10)
    (hd : s.data.all Char.isDigit = true) : Phone.init s = .ok { value := s } := by
  have hne : s.data.isEmpty = false := by
    have : s.data.length = 10 := h10
    cases hd2 : s.data with
    | nil => rw [hd2] at this; simp at this
    | cons c rest => simp
  unfold Phone.init
  rw [if_neg]
  simp [pyIsdigit, hne, hd, h10]

theorem Phone.init_invalid (s : String)
    (h : s.length ≠ 10 ∨ s.data.all Char.isDigit = false) :
    Phone.init s = .error "The phone number must contain exactly 10 digits." := by
  unfold Phone.init
  rw [if_pos]
  rcases h with h | h
  · simp [h]
  · simp [pyIsdigit, h]

theorem removeLoop_not_found (ph : String) (l : List Phone)
    (h : ∀ p ∈ l, p.value ≠ ph) : removeLoop ph l = (false, l) := by
  induction l with
  | nil => rfl
  | cons p rest ih =>
    have hp : ¬p.value = ph := h p (List.mem_cons_self p rest)
    have hrest := ih (fun q hq => h q (List.mem_cons_of_mem p hq))
    simp [removeLoop, hp, hrest]

theorem removeLoop_found (ph : String) (l1 : List Phone) (p : Phone) (l2 : List Phone)
    (h1 : ∀ q ∈ l1, q.value ≠ ph) (hp : p.value = ph) :
    removeLoop ph (l1 ++ p :: l2) = (true, l1 ++ l2) := by
  induction l1 with
  | nil => simp [removeLoop, hp]
  | cons q rest ih =>
    have hq : ¬q.value = ph := h1 q (List.mem_cons_self q rest)
    have hrest := ih (fun x hx => h1 x (List.mem_cons_of_mem q hx))
    simp [removeLoop, hq, hrest]

theorem removeLoop_snd_subset (ph : String) (l : List Phone) :
    ∀ p ∈ (removeLoop ph l).2, p ∈ l := by
  induction l with
  | nil => simp [removeLoop]
  | cons q rest ih =>
    by_cases hq : q.value = ph
    · simp only [removeLoop, if_pos hq]
      intro p hp
      exact List.mem_cons_of_mem q hp
    · simp only [removeLoop, if_neg hq]
      intro p hp
      rcases List.mem_cons.mp hp with h | h
      · exact h ▸ List.mem_cons_self q rest
      · exact List.mem_cons_of_mem q (ih p h)

theorem editLoop_not_found (old nw : String) (l : List Phone)
    (h : ∀ p ∈ l, p.value ≠ old) : editLoop old nw l = (.ok false, l) := by
  induction l with
  | nil => rfl
  | cons p rest ih =>
    have hp : ¬p.value = old := h p (List.mem_cons_self p rest)
    have hrest := ih (fun q hq => h q (List.mem_cons_of_mem p hq))
    simp [editLoop, hp, hrest]

theorem editLoop_found_error (old nw : String) (l1 : List Phone) (p : Phone)
    (l2 : List Phone) (e : String) (h1 : ∀ q ∈ l1, q.value ≠ old)
    (hp : p.value = old) (hinit : Phone.init nw = .error e) :
    editLoop old nw (l1 ++ p :: l2) = (.error e, l1 ++ p :: l2) := by
  induction l1 with
  | nil => simp [editLoop, hp, hinit]
  | cons q rest ih =>
    have hq : ¬q.value = old := h1 q (List.mem_cons_self q rest)
    have hrest := ih (fun x hx => h1 x (List.mem_cons_of_mem q hx))
    simp [editLoop, hq, hrest]

theorem editLoop_found_ok (old nw : String) (l1 : List Phone) (p : Phone)
    (l2 : List Phone) (np : Phone) (h1 : ∀ q ∈ l1, q.value ≠ old)
    (hp : p.value = old) (hinit : Phone.init nw = .ok np) :
    editLoop old nw (l1 ++ p :: l2) = (.ok true, l1 ++ np :: l2) := by
  induction l1 with
  | nil => simp [editLoop, hp, hinit]
  | cons q rest ih =>
    have hq : ¬q.value = old := h1 q (List.mem_cons_self q rest)
    have hrest := ih (fun x hx => h1 x (List.mem_cons_of_mem q hx))
    simp [editLoop, hq, hrest]

theorem editLoop_snd_valid (old nw : String) (l : List Phone)
    (h : ∀ p ∈ l, ValidPhone p) : ∀ p ∈ (editLoop old nw l).2, ValidPhone p := by
  induction l with
  | nil => simp [editLoop]
  | cons q rest ih =>
    have hq := h q (List.mem_cons_self q rest)
    have hrest := ih (fun x hx => h x (List.mem_cons_of_mem q hx))
    by_cases hv : q.value = old
    · rcases hinit : Phone.init nw with e | np
      · simp only [editLoop, if_pos hv, hinit]
        intro p hp
        rcases List.mem_cons.mp hp with h1 | h1
        · exact h1 ▸ hq
        · exact h p (List.mem_cons_of_mem q h1)
      · simp only [editLoop, if_pos hv, hinit]
        intro p hp
        rcases List.mem_cons.mp hp with h1 | h1
        · exact h1 ▸ (Phone.init_ok nw np hinit).2
        · exact h p (List.mem_cons_of_mem q h1)
    · simp only [editLoop, if_neg hv]
      intro p hp
      rcases List.mem_cons.mp hp with h1 | h1
      · exact h1 ▸ hq
      · exact hrest p h1

theorem upcoming_foldl (now : Nat) (l : List (String × Record)) (acc : List Record) :
    l.foldl
      (fun upcoming kr =>
        match kr.2.birthday with
        | some b =>
          if now ≤ dtToUs b.value ∧ dtToUs b.value ≤ now + 7 * dayUs then upcoming ++ [kr.2]
          else upcoming
        | none => upcoming) acc
      = acc ++ (l.map Prod.snd).filter (upcomingPred now) := by
  induction l generalizing acc with
  | nil => simp
  | cons kr t ih =>
    obtain ⟨k, r⟩ := kr
    rw [List.foldl_cons, List.map_cons, List.filter_cons]
    rcases hb : r.birthday with _ | b
    · simp only [hb, upcomingPred]
      rw [ih]
      simp
    · simp only [hb, upcomingPred]
      by_cases hw : now ≤ dtToUs b.value ∧ dtToUs b.value ≤ now + 7 * dayUs
      · simp only [if_pos hw, decide_eq_true hw.1, decide_eq_true hw.2, Bool.and_self,
          if_pos trivial]
        rw [ih]
        simp
      · rw [if_neg hw]
        have hfalse : (decide (now ≤ dtToUs b.value) && decide (dtToUs b.value ≤ now + 7 * dayUs)) = false := by
          rcases Decidable.not_and_iff_or_not.mp hw with h | h
          · simp [decide_eq_false h]
          · simp [decide_eq_false h]
        rw [hfalse]
        simp only [Bool.false_eq_true, if_false]
        rw [ih]

theorem get_upcoming_eq_filter (book : AddressBook) (now : Nat) :
    book.get_upcoming_birthdays now = book.values.filter (upcomingPred now) := by
  unfold AddressBook.get_upcoming_birthdays AddressBook.values
  rw [upcoming_foldl]
  simp

theorem mem_get_upcoming (book : AddressBook) (now : Nat) (r : Record) :
    r ∈ book.get_upcoming_birthdays now ↔
      r ∈ book.values ∧ upcomingPred now r = true := by
  rw [get_upcoming_eq_filter]
  exact List.mem_filter

theorem dictInsert_keys (k : String) (v : Record) (l : List (String × Record)) :
    (dictInsert k v l).map Prod.fst =
      if (dictGet k l).isSome then l.map Prod.fst else l.map Prod.fst ++ [k] := by
  induction l with
  | nil => simp [dictInsert, dictGet]
  | cons kv rest ih =>
    obtain ⟨k1, v1⟩ := kv
    by_cases h : k1 = k
    · subst h
      simp [dictInsert, dictGet]
    · simp only [dictInsert, if_neg h, dictGet, List.map_cons, ih]
      by_cases h2 : (dictGet k rest).isSome
      · rw [if_pos h2, if_pos h2]
      · rw [if_neg h2, if_neg h2]
        simp

/-! ### Claim theorems -/

/-- C3: for every string of exactly 10 decimal digits, constructing a `Phone`
succeeds and the phone's rendered value equals the input string; for every
string of a different length or containing a non-digit character,
construction fails with the validation error. -/
theorem phone_validation_spec (s : String) :
    (s.length = 10 → s.data.all Char.isDigit = true →
      Phone.init s = .ok { value := s } ∧ Phone.str { value := s } = s)
    ∧ ((s.length ≠ 10 ∨ s.data.all Char.isDigit = false) →
      Phone.init s = .error "The phone number must contain exactly 10 digits.") := by
  constructor
  · intro h10 hd
    exact ⟨Phone.init_valid s h10 hd, rfl⟩
  · exact Phone.init_invalid s

theorem phone_validation_spec_witness :
    Phone.init "1234567890" = .ok { value := "1234567890" }
    ∧ Phone.init "12345678a0" = .error "The phone number must contain exactly 10 digits." := by
  constructor
  · exact ((phone_validation_spec "1234567890").1 (by decide) (by decide)).1
  · exact (phone_validation_spec "12345678a0").2 (by decide)

/-- C6 counterexample: `Name.__init__` accepts the whitespace-only string
`" "` (only falsy — empty — input is rejected), so a stored name value can be
whitespace-only, contrary to the claim. -/
theorem name_whitespace_accepted : Name.init " " = .ok { value := " " } := rfl

/-- C6 (amended): `Name` construction fails with the validation error exactly
on the empty input string and otherwise stores the input unchanged; the
stored value is therefore never empty, but it may be whitespace-only. -/
theorem name_validation_spec (s : String) :
    (s = "" → Name.init s = .error "The name cannot be empty.")
    ∧ (s ≠ "" → Name.init s = .ok { value := s }) := by
  constructor
  · intro h
    simp [Name.init, h]
  · intro h
    simp [Name.init, h]

theorem name_validation_spec_witness :
    Name.init "" = .error "The name cannot be empty."
    ∧ Name.init "John" = .ok { value := "John" } := by
  constructor
  · exact (name_validation_spec "").1 rfl
  · exact (name_validation_spec "John").2 (by decide)

/-- C5: `add_record` stores the record under its name: lookup by that name
now yields exactly the new record (an existing entry is overwritten entirely
— its phones and birthday are gone, nothing is merged — and no error is
raised, the operation being total); every other name is untouched; the key
set gains the name only when it was absent. -/
theorem add_record_spec (book : AddressBook) (r : Record) :
    (book.add_record r).find r.name.value = some r
    ∧ ((book.add_record r).data.map Prod.fst =
        if book.hasKey r.name.value = true then book.data.map Prod.fst
        else book.data.map Prod.fst ++ [r.name.value])
    ∧ (∀ n, n ≠ r.name.value → (book.add_record r).find n = book.find n) := by
  refine ⟨dictGet_insert_self _ _ _, ?_, ?_⟩
  · exact dictInsert_keys _ _ _
  · intro n hn
    exact dictGet_insert_ne _ _ _ _ hn

theorem add_record_spec_witness :
    (AddressBook.add_record
        { data := [("John",
            { name := { value := "John" }, phones := [{ value := "1234567890" }],
              birthday := some { value := { year := 1990, month := 4, day := 10, hour := 0, minute := 0, second := 0, microsecond := 0 } } })] }
        { name := { value := "John" }, phones := [], birthday := none }).find "John"
      = some { name := { value := "John" }, phones := [], birthday := none }
    ∧ (AddressBook.add_record
        { data := [("John",
            { name := { value := "John" }, phones := [{ value := "1234567890" }],
              birthday := some { value := { year := 1990, month := 4, day := 10, hour := 0, minute := 0, second := 0, microsecond := 0 } } })] }
        { name := { value := "John" }, phones := [], birthday := none }).find "Jane"
      = none := by
  constructor
  · exact (add_record_spec _ _).1
  · have h := (add_record_spec
      { data := [("John",
          { name := { value := "John" }, phones := [{ value := "1234567890" }],
            birthday := some { value := { year := 1990, month := 4, day := 10, hour := 0, minute := 0, second := 0, microsecond := 0 } } })] }
      { name := { value := "John" }, phones := [], birthday := none }).2.2 "Jane" (by decide)
    rw [h]
    rfl

/-- C7: not-found conditions never raise: `find` returns the stored record
when the name is present and `none` when it is missing; `delete` removes a
present entry and is a no-op on an absent one; `remove_phone` and
`edit_phone` signal a missing phone by their boolean result, leaving the
record untouched and raising nothing (in particular `edit_phone` never even
validates the new number when the old one is absent). -/
theorem not_found_spec :
    (∀ (book : AddressBook) (name : String), book.hasKey name = false →
      book.find name = none ∧ book.delete name = book)
    ∧ (∀ (book : AddressBook) (name : String), book.hasKey name = true →
      ∃ r, book.find name = some r ∧ (name, r) ∈ book.data)
    ∧ (∀ (book : AddressBook) (name : String), book.KeysNodup →
      (book.delete name).find name = none)
    ∧ (∀ (r : Record) (phone : String), (∀ p ∈ r.phones, p.value ≠ phone) →
      r.remove_phone phone = (false, r))
    ∧ (∀ (r : Record) (old nw : String), (∀ p ∈ r.phones, p.value ≠ old) →
      r.edit_phone old nw = (.ok false, r)) := by
  refine ⟨?_, ?_, ?_, ?_, ?_⟩
  · intro book name h
    unfold AddressBook.hasKey at h
    have hnone : dictGet name book.data = none := by
      rcases hg : dictGet name book.data with _ | r
      · rfl
      · rw [hg] at h
        simp at h
    refine ⟨hnone, ?_⟩
    show { data := dictDel name book.data } = book
    rw [dictDel_not_found name book.data hnone]
  · intro book name h
    unfold AddressBook.hasKey at h
    rcases hg : dictGet name book.data with _ | r
    · rw [hg] at h
      simp at h
    · exact ⟨r, hg, dictGet_mem name book.data r hg⟩
  · intro book name h
    exact dictGet_del_self name book.data h
  · intro r phone h
    unfold Record.remove_phone
    rw [removeLoop_not_found phone r.phones h]
  · intro r old nw h
    unfold Record.edit_phone
    rw [editLoop_not_found old nw r.phones h]

theorem not_found_spec_witness :
    AddressBook.find { data := [] } "John" = none
    ∧ Record.remove_phone
        { name := { value := "John" }, phones := [{ value := "1234567890" }], birthday := none }
        "1112223333"
      = (false, { name := { value := "John" }, phones := [{ value := "1234567890" }], birthday := none })
    ∧ Record.edit_phone
        { name := { value := "John" }, phones := [{ value := "1234567890" }], birthday := none }
        "1112223333" "123"
      = (.ok false, { name := { value := "John" }, phones := [{ value := "1234567890" }], birthday := none }) := by
  refine ⟨?_, ?_, ?_⟩
  · exact (not_found_spec.1 { data := [] } "John" (by decide)).1
  · exact not_found_spec.2.2.2.1 _ "1112223333" (by decide)
  · exact not_found_spec.2.2.2.2 _ "1112223333" "123" (by decide)

/-- C8: `remove_phone` removes exactly the first phone whose rendered value
equals the argument and returns `true`, leaving earlier non-matching phones
and all later phones (including duplicate occurrences of the same value) in
place and in order; when no phone matches, it returns `false` with the list
unchanged. -/
theorem remove_phone_spec (r : Record) (phone : String) :
    ((∀ p ∈ r.phones, p.value ≠ phone) → r.remove_phone phone = (false, r))
    ∧ (∀ (l1 : List Phone) (p : Phone) (l2 : List Phone),
        r.phones = l1 ++ p :: l2 → (∀ q ∈ l1, q.value ≠ phone) → p.value = phone →
        r.remove_phone phone = (true, { r with phones := l1 ++ l2 })) := by
  constructor
  · intro h
    unfold Record.remove_phone
    rw [removeLoop_not_found phone r.phones h]
  · intro l1 p l2 hsplit h1 hp
    unfold Record.remove_phone
    rw [hsplit, removeLoop_found phone l1 p l2 h1 hp]

theorem remove_phone_spec_witness :
    Record.remove_phone
      { name := { value := "John" },
        phones := [{ value := "1234567890" }, { value := "1112223333" }, { value := "1234567890" }],
        birthday := none }
      "1234567890"
    = (true,
       { name := { value := "John" },
         phones := [{ value := "1112223333" }, { value := "1234567890" }],
         birthday := none }) := by
  exact (remove_phone_spec _ "1234567890").2
    [] { value := "1234567890" } [{ value := "1112223333" }, { value := "1234567890" }]
    rfl (by simp) rfl

/-- C2: `edit_phone(old, new)` finds the first phone equal to `old` and only
then constructs the replacement: if `old` is absent the call returns `false`
with no mutation and no error; if `old` is found and `new` fails `Phone`
validation, the error propagates and the record's phone list is unchanged
(the constructor runs before the assignment, so the call is atomic); if
`old` is found and `new` is valid, the first matching phone is replaced in
place, preserving its position, and the call returns `true`. -/
theorem edit_phone_spec (r : Record) (old nw : String) :
    ((∀ p ∈ r.phones, p.value ≠ old) → r.edit_phone old nw = (.ok false, r))
    ∧ (∀ (l1 : List Phone) (p : Phone) (l2 : List Phone) (e : String),
        r.phones = l1 ++ p :: l2 → (∀ q ∈ l1, q.value ≠ old) → p.value = old →
        Phone.init nw = .error e →
        r.edit_phone old nw = (.error e, r))
    ∧ (∀ (l1 : List Phone) (p : Phone) (l2 : List Phone) (np : Phone),
        r.phones = l1 ++ p :: l2 → (∀ q ∈ l1, q.value ≠ old) → p.value = old →
        Phone.init nw = .ok np →
        r.edit_phone old nw = (.ok true, { r with phones := l1 ++ np :: l2 })) := by
  refine ⟨?_, ?_, ?_⟩
  · intro h
    unfold Record.edit_phone
    rw [editLoop_not_found old nw r.phones h]
  · intro l1 p l2 e hsplit h1 hp hinit
    unfold Record.edit_phone
    rw [hsplit, editLoop_found_error old nw l1 p l2 e h1 hp hinit, ← hsplit]
  · intro l1 p l2 np hsplit h1 hp hinit
    unfold Record.edit_phone
    rw [hsplit, editLoop_found_ok old nw l1 p l2 np h1 hp hinit]

theorem edit_phone_spec_witness :
    Record.edit_phone
      { name := { value := "John" }, phones := [{ value := "1234567890" }], birthday := none }
      "1234567890" "123"
    = (.error "The phone number must contain exactly 10 digits.",
       { name := { value := "John" }, phones := [{ value := "1234567890" }], birthday := none })
    ∧ Record.edit_phone
      { name := { value := "John" }, phones := [{ value := "1234567890" }], birthday := none }
      "1234567890" "1112223333"
    = (.ok true,
       { name := { value := "John" }, phones := [{ value := "1112223333" }], birthday := none }) := by
  constructor
  · exact (edit_phone_spec _ "1234567890" "123").2.1
      [] { value := "1234567890" } [] "The phone number must contain exactly 10 digits."
      rfl (by simp) rfl rfl
  · exact (edit_phone_spec _ "1234567890" "1112223333").2.2
      [] { value := "1234567890" } [] { value := "1112223333" }
      rfl (by simp) rfl rfl

/-- C1: at any call instant `now`, `get_upcoming_birthdays` returns exactly
those records that have a birthday set and whose stored birthday datetime
lies in the inclusive window from `now` to `now + 7` days, in the book's
iteration order (the result is a filter of the book's values); the stored
year takes part in the comparison literally, so a birthday whose datetime
lies before `now` (for example one with a past year) is excluded; a birthday
exactly at `now + 7` days is included and one at `now + 8` days is
excluded. -/
theorem get_upcoming_birthdays_spec (book : AddressBook) (now : Nat) :
    book.get_upcoming_birthdays now = book.values.filter (upcomingPred now)
    ∧ (∀ (r : Record) (b : Birthday), r.birthday = some b →
        (r ∈ book.get_upcoming_birthdays now ↔
          r ∈ book.values ∧ now ≤ dtToUs b.value ∧ dtToUs b.value ≤ now + 7 * dayUs))
    ∧ (∀ r : Record, r.birthday = none → r ∉ book.get_upcoming_birthdays now)
    ∧ (∀ (r : Record) (b : Birthday), r.birthday = some b → r ∈ book.values →
        dtToUs b.value = now + 7 * dayUs → r ∈ book.get_upcoming_birthdays now)
    ∧ (∀ (r : Record) (b : Birthday), r.birthday = some b →
        dtToUs b.value = now + 8 * dayUs → r ∉ book.get_upcoming_birthdays now)
    ∧ (∀ (r : Record) (b : Birthday), r.birthday = some b →
        dtToUs b.value < now → r ∉ book.get_upcoming_birthdays now) := by
  have hmem : ∀ (r : Record) (b : Birthday), r.birthday = some b →
      (r ∈ book.get_upcoming_birthdays now ↔
        r ∈ book.values ∧ now ≤ dtToUs b.value ∧ dtToUs b.value ≤ now + 7 * dayUs) := by
    intro r b hb
    rw [mem_get_upcoming]
    simp [upcomingPred, hb, Bool.and_eq_true, decide_eq_true_eq]
  have hdayUs : dayUs = 86400000000 := rfl
  refine ⟨get_upcoming_eq_filter book now, hmem, ?_, ?_, ?_, ?_⟩
  · intro r hb hinmem
    rw [mem_get_upcoming] at hinmem
    simp [upcomingPred, hb] at hinmem
  · intro r b hb hval hts
    exact (hmem r b hb).mpr ⟨hval, by omega, by omega⟩
  · intro r b hb hts hinmem
    have h := ((hmem r b hb).mp hinmem).2
    omega
  · intro r b hb hts hinmem
    have h := ((hmem r b hb).mp hinmem).2
    omega

theorem get_upcoming_birthdays_spec_witness :
    ({ name := { value := "John" }, phones := [],
       birthday := some { value := { year := 1990, month := 4, day := 10, hour := 0, minute := 0, second := 0, microsecond := 0 } } } : Record)
      ∈ AddressBook.get_upcoming_birthdays
        { data := [
            ("John",
              { name := { value := "John" }, phones := [],
                birthday := some { value := { year := 1990, month := 4, day := 10, hour := 0, minute := 0, second := 0, microsecond := 0 } } }),
            ("Jane",
              { name := { value := "Jane" }, phones := [],
                birthday := some { value := { year := 1990, month := 4, day := 11, hour := 0, minute := 0, second := 0, microsecond := 0 } } })] }
        (726560 * dayUs)
    ∧ ({ name := { value := "Jane" }, phones := [],
         birthday := some { value := { year := 1990, month := 4, day := 11, hour := 0, minute := 0, second := 0, microsecond := 0 } } } : Record)
      ∉ AddressBook.get_upcoming_birthdays
        { data := [
            ("John",
              { name := { value := "John" }, phones := [],
                birthday := some { value := { year := 1990, month := 4, day := 10, hour := 0, minute := 0, second := 0, microsecond := 0 } } }),
            ("Jane",
              { name := { value := "Jane" }, phones := [],
                birthday := some { value := { year := 1990, month := 4, day := 11, hour := 0, minute := 0, second := 0, microsecond := 0 } } })] }
        (726560 * dayUs) := by
  constructor
  · exact (get_upcoming_birthdays_spec _ (726560 * dayUs)).2.2.2.1 _
      { value := { year := 1990, month := 4, day := 10, hour := 0, minute := 0, second := 0, microsecond := 0 } }
      rfl (by decide) (by decide)
  · exact (get_upcoming_birthdays_spec _ (726560 * dayUs)).2.2.2.2.1 _
      { value := { year := 1990, month := 4, day := 11, hour := 0, minute := 0, second := 0, microsecond := 0 } }
      rfl (by decide)

/-- C10: `Birthday` construction stores the parsed date at midnight (all
time-of-day fields zero); consequently, at any call instant strictly after
midnight of the birthday's own calendar day (`now = midnight + t` with
`0 < t < 1` day), a record carrying that birthday is excluded from
`get_upcoming_birthdays`, because its stored datetime lies strictly before
`now`. -/
theorem birthday_midnight_spec (s : String) (b : Birthday)
    (hinit : Birthday.init s = .ok b) :
    (b.value.hour = 0 ∧ b.value.minute = 0 ∧ b.value.second = 0 ∧ b.value.microsecond = 0)
    ∧ (∀ (book : AddressBook) (r : Record) (t : Nat), r.birthday = some b →
        0 < t → t < dayUs →
        r ∉ book.get_upcoming_birthdays (dtToUs b.value + t)) := by
  constructor
  · unfold Birthday.init at hinit
    rcases hp : strptimeDMY s with _ | ⟨y, m, d⟩
    · rw [hp] at hinit
      exact Except.noConfusion hinit
    · rw [hp] at hinit
      cases hinit
      exact ⟨rfl, rfl, rfl, rfl⟩
  · intro book r t hb ht _ hinmem
    rw [mem_get_upcoming] at hinmem
    have h := hinmem.2
    simp [upcomingPred, hb, Bool.and_eq_true, decide_eq_true_eq] at h
    omega

theorem birthday_midnight_spec_witness :
    (({ value := { year := 1990, month := 4, day := 10, hour := 0, minute := 0, second := 0, microsecond := 0 } } : Birthday).value.hour = 0
      ∧ ({ value := { year := 1990, month := 4, day := 10, hour := 0, minute := 0, second := 0, microsecond := 0 } } : Birthday).value.minute = 0
      ∧ ({ value := { year := 1990, month := 4, day := 10, hour := 0, minute := 0, second := 0, microsecond := 0 } } : Birthday).value.second = 0
      ∧ ({ value := { year := 1990, month := 4, day := 10, hour := 0, minute := 0, second := 0, microsecond := 0 } } : Birthday).value.microsecond = 0)
    ∧ ({ name := { value := "John" }, phones := [],
         birthday := some { value := { year := 1990, month := 4, day := 10, hour := 0, minute := 0, second := 0, microsecond := 0 } } } : Record)
      ∉ AddressBook.get_upcoming_birthdays
        { data := [
            ("John",
              { name := { value := "John" }, phones := [],
                birthday := some { value := { year := 1990, month := 4, day := 10, hour := 0, minute := 0, second := 0, microsecond := 0 } } })] }
        (dtToUs { year := 1990, month := 4, day := 10, hour := 0, minute := 0, second := 0, microsecond := 0 } + 1) := by
  have h := birthday_midnight_spec "10.04.1990"
    { value := { year := 1990, month := 4, day := 10, hour := 0, minute := 0, second := 0, microsecond := 0 } } rfl
  exact ⟨h.1, h.2 _ _ 1 rfl (by decide) (by decide)⟩

/-- C9: invariant kept by every public operation: each record reachable by
constructing a `Record` and applying any sequence of `add_phone`,
`edit_phone`, `remove_phone`, `add_birthday` has only validated phones —
every element of its phone list is a string of exactly 10 decimal digits. -/
theorem reachable_phones_valid (r : Record) (h : ReachableRecord r) :
    ∀ p ∈ r.phones, ValidPhone p := by
  induction h with
  | init name r0 hinit =>
    unfold Record.init at hinit
    rcases hname : Name.init name with e | n
    · rw [hname] at hinit
      exact Except.noConfusion hinit
    · rw [hname] at hinit
      simp only [Except.map] at hinit
      cases hinit
      simp
  | add_phone r0 phone r1 hr hadd ih =>
    unfold Record.add_phone at hadd
    rcases hinit : Phone.init phone with e | p
    · rw [hinit] at hadd
      exact Except.noConfusion hadd
    · rw [hinit] at hadd
      simp only [Except.map] at hadd
      cases hadd
      intro q hq
      rcases List.mem_append.mp hq with h1 | h1
      · exact ih q h1
      · have hv := (Phone.init_ok phone p hinit).2
        rw [List.mem_singleton.mp h1]
        exact hv
  | edit_phone r0 old nw res r1 hr hedit ih =>
    unfold Record.edit_phone at hedit
    have h2 : r1 = { r0 with phones := (editLoop old nw r0.phones).2 } := by
      have := congrArg Prod.snd hedit
      simpa using this.symm
    rw [h2]
    exact editLoop_snd_valid old nw r0.phones ih
  | remove_phone r0 phone b r1 hr hrem ih =>
    unfold Record.remove_phone at hrem
    have h2 : r1 = { r0 with phones := (removeLoop phone r0.phones).2 } := by
      have := congrArg Prod.snd hrem
      simpa using this.symm
    rw [h2]
    intro p hp
    exact ih p (removeLoop_snd_subset phone r0.phones p hp)
  | add_birthday r0 birthday r1 hr hadd ih =>
    unfold Record.add_birthday at hadd
    rcases hinit : Birthday.init birthday with e | bd
    · rw [hinit] at hadd
      exact Except.noConfusion hadd
    · rw [hinit] at hadd
      simp only [Except.map] at hadd
      cases hadd
      exact ih

theorem reachable_phones_valid_witness :
    ValidPhone { value := "1112223333" } := by
  have hreach : ReachableRecord
      { name := { value := "John" }, phones := [{ value := "1112223333" }], birthday := none } :=
    ReachableRecord.add_phone
      { name := { value := "John" }, phones := [], birthday := none } "1112223333" _
      (ReachableRecord.init "John" _ rfl) rfl
  exact reachable_phones_valid _ hreach { value := "1112223333" }
    (List.mem_cons_self _ _)

theorem parseGroup_pair (c1 c2 : Char) (h1 : c1.isDigit = true) (h2 : c2.isDigit = true)
    (lo hi : Nat) (hlo : lo ≤ digitsToNat [c1, c2]) (hhi : digitsToNat [c1, c2] ≤ hi) :
    parseGroup 1 2 lo hi [c1, c2] = some (digitsToNat [c1, c2]) := by
  unfold parseGroup
  have hcond : 1 ≤ ([c1, c2] : List Char).length ∧ ([c1, c2] : List Char).length ≤ 2
      ∧ ([c1, c2] : List Char).all Char.isDigit := by
    refine ⟨by simp, by simp, ?_⟩
    simp [h1, h2]
  rw [if_pos hcond, if_pos ⟨hlo, hhi⟩]

theorem parseGroup_quad (c1 c2 c3 c4 : Char) (h1 : c1.isDigit = true)
    (h2 : c2.isDigit = true) (h3 : c3.isDigit = true) (h4 : c4.isDigit = true)
    (lo hi : Nat) (hlo : lo ≤ digitsToNat [c1, c2, c3, c4])
    (hhi : digitsToNat [c1, c2, c3, c4] ≤ hi) :
    parseGroup 4 4 lo hi [c1, c2, c3, c4] = some (digitsToNat [c1, c2, c3, c4]) := by
  unfold parseGroup
  have hcond : 4 ≤ ([c1, c2, c3, c4] : List Char).length
      ∧ ([c1, c2, c3, c4] : List Char).length ≤ 4
      ∧ ([c1, c2, c3, c4] : List Char).all Char.isDigit := by
    refine ⟨by simp, by simp, ?_⟩
    simp [h1, h2, h3, h4]
  rw [if_pos hcond, if_pos ⟨hlo, hhi⟩]

/-- C4: for every string matching `DD.MM.YYYY` (two digit characters for the
day, two for the month, four for the year, around literal dots) that denotes
a valid calendar date, constructing a `Birthday` succeeds, stores exactly
that calendar date, and rendering the stored date back with `%d.%m.%Y`
reproduces the identical input string. -/
theorem birthday_roundtrip_spec (d1 d2 m1 m2 y1 y2 y3 y4 : Char)
    (hd1 : d1.isDigit = true) (hd2 : d2.isDigit = true)
    (hm1 : m1.isDigit = true) (hm2 : m2.isDigit = true)
    (hy1 : y1.isDigit = true) (hy2 : y2.isDigit = true)
    (hy3 : y3.isDigit = true) (hy4 : y4.isDigit = true)
    (day month year : Nat)
    (hday : day = 10 * (d1.toNat - 48) + (d2.toNat - 48))
    (hmonth : month = 10 * (m1.toNat - 48) + (m2.toNat - 48))
    (hyear : year = 1000 * (y1.toNat - 48) + 100 * (y2.toNat - 48)
      + 10 * (y3.toNat - 48) + (y4.toNat - 48))
    (hday1 : 1 ≤ day) (hmonth1 : 1 ≤ month) (hmonth12 : month ≤ 12)
    (hyear1 : 1 ≤ year) (hdaymax : day ≤ daysInMonth year month) :
    Birthday.init (String.mk [d1, d2, '.', m1, m2, '.', y1, y2, y3, y4])
      = .ok { value := { year := year, month := month, day := day,
                         hour := 0, minute := 0, second := 0, microsecond := 0 } }
    ∧ Birthday.render { value := { year := year, month := month, day := day,
                                   hour := 0, minute := 0, second := 0, microsecond := 0 } }
      = String.mk [d1, d2, '.', m1, m2, '.', y1, y2, y3, y4] := by
  obtain ⟨hbd1, hbd1u⟩ := isDigit_toNat_bounds d1 hd1
  obtain ⟨hbd2, hbd2u⟩ := isDigit_toNat_bounds d2 hd2
  obtain ⟨hbm1, hbm1u⟩ := isDigit_toNat_bounds m1 hm1
  obtain ⟨hbm2, hbm2u⟩ := isDigit_toNat_bounds m2 hm2
  obtain ⟨hby1, hby1u⟩ := isDigit_toNat_bounds y1 hy1
  obtain ⟨hby2, hby2u⟩ := isDigit_toNat_bounds y2 hy2
  obtain ⟨hby3, hby3u⟩ := isDigit_toNat_bounds y3 hy3
  obtain ⟨hby4, hby4u⟩ := isDigit_toNat_bounds y4 hy4
  have hfree_d : ∀ c ∈ [d1, d2], c ≠ '.' := by
    intro c hc
    simp only [List.mem_cons, List.not_mem_nil, or_false] at hc
    rcases hc with rfl | rfl
    · exact isDigit_ne_dot c hd1
    · exact isDigit_ne_dot c hd2
  have hfree_m : ∀ c ∈ [m1, m2], c ≠ '.' := by
    intro c hc
    simp only [List.mem_cons, List.not_mem_nil, or_false] at hc
    rcases hc with rfl | rfl
    · exact isDigit_ne_dot c hm1
    · exact isDigit_ne_dot c hm2
  have hfree_y : ∀ c ∈ [y1, y2, y3, y4], c ≠ '.' := by
    intro c hc
    simp only [List.mem_cons, List.not_mem_nil, or_false] at hc
    rcases hc with rfl | rfl | rfl | rfl
    · exact isDigit_ne_dot c hy1
    · exact isDigit_ne_dot c hy2
    · exact isDigit_ne_dot c hy3
    · exact isDigit_ne_dot c hy4
  have hsplit : splitOnDot [d1, d2, '.', m1, m2, '.', y1, y2, y3, y4]
      = [[d1, d2], [m1, m2], [y1, y2, y3, y4]] := by
    have e1 : [d1, d2, '.', m1, m2, '.', y1, y2, y3, y4]
        = [d1, d2] ++ '.' :: ([m1, m2] ++ '.' :: [y1, y2, y3, y4]) := rfl
    rw [e1, splitOnDot_append [d1, d2] _ hfree_d,
      splitOnDot_append [m1, m2] _ hfree_m, splitOnDot_no_dot _ hfree_y]
  have hvd : digitsToNat [d1, d2] = day := by
    rw [digitsToNat_pair, hday]
  have hvm : digitsToNat [m1, m2] = month := by
    rw [digitsToNat_pair, hmonth]
  have hvy : digitsToNat [y1, y2, y3, y4] = year := by
    rw [digitsToNat_quad, hyear]
  have h31 : day ≤ 31 := le_trans hdaymax (daysInMonth_le_31 year month)
  have hpd : parseGroup 1 2 1 31 [d1, d2] = some day := by
    rw [parseGroup_pair d1 d2 hd1 hd2 1 31 (by omega) (by omega), hvd]
  have hpm : parseGroup 1 2 1 12 [m1, m2] = some month := by
    rw [parseGroup_pair m1 m2 hm1 hm2 1 12 (by omega) (by omega), hvm]
  have hpy : parseGroup 4 4 0 9999 [y1, y2, y3, y4] = some year := by
    rw [parseGroup_quad y1 y2 y3 y4 hy1 hy2 hy3 hy4 0 9999 (by omega) (by omega), hvy]
  have hdata : (String.mk [d1, d2, '.', m1, m2, '.', y1, y2, y3, y4]).data
      = [d1, d2, '.', m1, m2, '.', y1, y2, y3, y4] := rfl
  have hparse : strptimeDMY (String.mk [d1, d2, '.', m1, m2, '.', y1, y2, y3, y4])
      = some (year, month, day) := by
    unfold strptimeDMY
    rw [hdata, hsplit]
    simp only [hpd, hpm, hpy]
    rw [if_pos ⟨hyear1, hdaymax⟩]
  have hpad_d : pad2 day = [d1, d2] := by
    unfold pad2
    have ha1 : day / 10 = d1.toNat - 48 := by omega
    have ha2 : day % 10 = d2.toNat - 48 := by omega
    rw [ha1, ha2, digitChar_inv d1 hd1, digitChar_inv d2 hd2]
  have hpad_m : pad2 month = [m1, m2] := by
    unfold pad2
    have ha1 : month / 10 = m1.toNat - 48 := by omega
    have ha2 : month % 10 = m2.toNat - 48 := by omega
    rw [ha1, ha2, digitChar_inv m1 hm1, digitChar_inv m2 hm2]
  have hpad_y : pad4 year = [y1, y2, y3, y4] := by
    unfold pad4
    have ha1 : year / 1000 = y1.toNat - 48 := by omega
    have ha2 : year / 100 % 10 = y2.toNat - 48 := by omega
    have ha3 : year / 10 % 10 = y3.toNat - 48 := by omega
    have ha4 : year % 10 = y4.toNat - 48 := by omega
    rw [ha1, ha2, ha3, ha4, digitChar_inv y1 hy1, digitChar_inv y2 hy2,
      digitChar_inv y3 hy3, digitChar_inv y4 hy4]
  constructor
  · unfold Birthday.init
    rw [hparse]
  · show String.mk (pad2 day ++ '.' :: pad2 month ++ '.' :: pad4 year)
        = String.mk [d1, d2, '.', m1, m2, '.', y1, y2, y3, y4]
    rw [hpad_d, hpad_m, hpad_y]
    rfl

theorem birthday_roundtrip_spec_witness :
    Birthday.init (String.mk ['1', '0', '.', '0', '4', '.', '1', '9', '9', '0'])
      = .ok { value := { year := 1990, month := 4, day := 10,
                         hour := 0, minute := 0, second := 0, microsecond := 0 } }
    ∧ Birthday.render { value := { year := 1990, month := 4, day := 10,
                                   hour := 0, minute := 0, second := 0, microsecond := 0 } }
      = String.mk ['1', '0', '.', '0', '4', '.', '1', '9', '9', '0'] := by
  exact birthday_roundtrip_spec '1' '0' '0' '4' '1' '9' '9' '0'
    (by decide) (by decide) (by decide) (by decide)
    (by decide) (by decide) (by decide) (by decide)
    10 4 1990 (by decide) (by decide) (by decide)
    (by decide) (by decide) (by decide) (by decide) (by decide)
